import Mathlib

/-!
Verification of the piece-of-peace jigsaw core.

The development shallowly embeds the two subsystems of the repository:

* the edge/path generator (`src/logic/PieceGenerator.ts`): the seeded
  pseudo-random edge profile, the `(seed, length)` cache, polarity flip,
  segment reversal and side-to-global placement of cubic Bézier segments.
  JavaScript floating-point numbers are modelled as real numbers, and
  `Math.sin`, `Math.sqrt`, `Math.atan2`, `Math.cos` as their exact
  real-analytic counterparts.
* the board/engine (the `PuzzleBoard` components): the border lattices,
  piece construction, drag translation, snap merging and the completion
  check.  The engine never uses transcendental functions, so its numbers
  are modelled as rationals and every definition is executable.
  `Math.random()` draws are modelled as oracle parameters (`coin` for the
  Tab/Slot choice of each interior border, `scatter` for the shuffled
  scatter slot assigned to each piece id).

The repository ships two variants of the board component: the file
`src/components/PuzzleBoard.tsx` and the unnamed variant (part_000) whose
`generatePath` call matches `PieceGenerator.ts`.  Where the two variants
differ (`checkConnection` versus `mergeGroupsIfSnapped`, and the completion
check) both are embedded, under their source names.
-/

namespace PieceOfPeace

/-! ## Data model: `src/types.ts` -/

/-- Side kind, from the `SideType` enum of `src/types.ts`. -/
inductive SideType
  | FLAT
  | TAB
  | SLOT
deriving DecidableEq

open SideType

/-! ## Geometry: `src/logic/PieceGenerator.ts` (numbers as reals) -/

/-- A 2-d point of the path generator (`type Point` in PieceGenerator.ts). -/
@[ext] structure Pt where
  x : ℝ
  y : ℝ

/-- One cubic Bézier segment: two control points and the end point, the
start point being the current point of the path (`type CubicSeg`).  The
source field `end` is a Lean keyword, renamed `endp`. -/
@[ext] structure CubicSeg where
  c1 : Pt
  c2 : Pt
  endp : Pt

/-- Side specification (`type SideSpec`): kind, shared border seed, and
whether the border is traversed in reverse. -/
structure SideSpec where
  type : SideType
  seed : ℕ
  reverse : Bool
deriving DecidableEq

/-- Shape constant `TAB_HEIGHT = 0.28`. -/
noncomputable def TAB_HEIGHT : ℝ := 0.28

/-- Shape constant `NECK_WIDTH = 0.22`. -/
noncomputable def NECK_WIDTH : ℝ := 0.22

/-- Shape constant `HEAD_WIDTH = 0.35`. -/
noncomputable def HEAD_WIDTH : ℝ := 0.35

/-- Shape constant `JITTER = 0.04`. -/
noncomputable def JITTER : ℝ := 0.04

/-- Shape constant `SKEW_LIMIT = 2`. -/
noncomputable def SKEW_LIMIT : ℝ := 2

/-- The deterministic seed-based draw inside `getBaseEdgeSegments`:
`const x = Math.sin(seed * 999 + offset) * 10000; return x - Math.floor(x)`. -/
noncomputable def random (seed offset : ℕ) : ℝ :=
  Real.sin (seed * 999 + offset) * 10000 - ⌊Real.sin (seed * 999 + offset) * 10000⌋

/-- `const range = (offset) => random(offset) * 2 - 1`. -/
noncomputable def rangeDraw (seed offset : ℕ) : ℝ :=
  random seed offset * 2 - 1

/-- The body of `getBaseEdgeSegments` after the cache lookup: the four
cubic segments of the base edge profile for `(len, seed)`, bulging towards
`+y`, transcribed verbatim from PieceGenerator.ts lines 120-154. -/
noncomputable def computeSegs (len : ℝ) (seed : ℕ) : List CubicSeg :=
  let tabH := len * (TAB_HEIGHT + rangeDraw seed 1 * JITTER)
  let neckW := len * (NECK_WIDTH + rangeDraw seed 2 * JITTER)
  let headW := len * (HEAD_WIDTH + rangeDraw seed 3 * JITTER)
  let skew := rangeDraw seed 4 * SKEW_LIMIT
  let mid := len / 2
  let neckL := mid - neckW / 2
  let neckR := mid + neckW / 2
  let shoulderY := tabH * 0.15
  let neckY := tabH * 0.22
  let headY := tabH
  [ ⟨⟨len * 0.2, 0⟩, ⟨neckL - 2, shoulderY⟩, ⟨neckL, neckY⟩⟩,
    ⟨⟨neckL - 2, headY * 0.4⟩, ⟨mid + skew - headW * 0.8, headY⟩, ⟨mid + skew, headY⟩⟩,
    ⟨⟨mid + skew + headW * 0.8, headY⟩, ⟨neckR + 2, headY * 0.4⟩, ⟨neckR, neckY⟩⟩,
    ⟨⟨neckR + 2, shoulderY⟩, ⟨len * 0.8, 0⟩, ⟨len, 0⟩⟩ ]

/-- The cache key ```${seed}|${len.toFixed(4)}` ``: the seed together with
the length rounded to four decimal places.  JavaScript's `toFixed(4)` on the
positive lengths in play rounds to the nearest multiple of `1/10000`, ties
upward, which is `⌊len * 10000 + 1/2⌋` in units of `1/10000`. -/
noncomputable def toFixed4 (len : ℝ) : ℤ :=
  ⌊len * 10000 + 1 / 2⌋

/-- The edge cache (`static edgeCache = new Map<string, CubicSeg[]>()`),
modelled as an association list keyed by `(seed, toFixed4 len)` with the
most recent insertion in front. -/
abbrev EdgeCache := List ((ℕ × ℤ) × List CubicSeg)

/-- `getBaseEdgeSegments(len, seed)` with the cache state passed explicitly:
return the cached segments for the key when present, otherwise compute,
store and return them. -/
noncomputable def getBaseEdgeSegments (len : ℝ) (seed : ℕ) (cache : EdgeCache) :
    List CubicSeg × EdgeCache :=
  match cache.lookup (seed, toFixed4 len) with
  | some segs => (segs, cache)
  | none => (computeSegs len seed, ((seed, toFixed4 len), computeSegs len seed) :: cache)

/-- `applyDir`: flip the `y` of every control/end point when `dir = -1`. -/
noncomputable def applyDir (base : List CubicSeg) (dir : ℝ) : List CubicSeg :=
  base.map fun s =>
    ⟨⟨s.c1.x, s.c1.y * dir⟩, ⟨s.c2.x, s.c2.y * dir⟩, ⟨s.endp.x, s.endp.y * dir⟩⟩

/-- `reverseSegments`: retrace the whole local path.  The source first
recovers the start point `P0[i]` of every segment (`P0[0] = (0,0)`,
`P0[i+1] = segs[i].end`), then emits, for `i` from last to first, the
segment `(c2, c1, P0[i])` with every `x` reflected to `len - x`. -/
noncomputable def reverseSegments (segs : List CubicSeg) (len : ℝ) : List CubicSeg :=
  ((segs.zip (⟨0, 0⟩ :: segs.map (·.endp))).map fun sp =>
    ⟨⟨len - sp.1.c2.x, sp.1.c2.y⟩, ⟨len - sp.1.c1.x, sp.1.c1.y⟩,
      ⟨len - sp.2.x, sp.2.y⟩⟩).reverse

/-- JavaScript's `Math.atan2(y, x)` over the reals. -/
noncomputable def atan2 (y x : ℝ) : ℝ :=
  if 0 < x then Real.arctan (y / x)
  else if x < 0 then
    (if 0 ≤ y then Real.arctan (y / x) + Real.pi else Real.arctan (y / x) - Real.pi)
  else if 0 < y then Real.pi / 2
  else if y < 0 then -(Real.pi / 2)
  else 0

/-- The mathematical content of `sideToPath(spec, start, end)`: the list of
global cubic segments the side contributes to the path (`C` commands; a
`FLAT` side emits only a straight `L` command, hence no cubic segment).
The base profile is `computeSegs len seed`, which by
`edge_determinism_amended` is exactly what the cached
`getBaseEdgeSegments` returns for the fresh keys and the single length
(`len = 100`) a board build uses.  The source parameter `end` is renamed
`stop`. -/
noncomputable def sideSegments (spec : SideSpec) (start stop : Pt) : List CubicSeg :=
  if spec.type = FLAT then []
  else
    let dx := stop.x - start.x
    let dy := stop.y - start.y
    let len := Real.sqrt (dx * dx + dy * dy)
    let angle := atan2 dy dx
    let dir : ℝ := if spec.type = TAB then -1 else 1
    let base := computeSegs len spec.seed
    let segs := if spec.reverse then reverseSegments (applyDir base dir) len
      else applyDir base dir
    let cosA := Real.cos angle
    let sinA := Real.sin angle
    let toGlobal : Pt → Pt := fun p =>
      ⟨start.x + p.x * cosA - p.y * sinA, start.y + p.x * sinA + p.y * cosA⟩
    segs.map fun s => ⟨toGlobal s.c1, toGlobal s.c2, toGlobal s.endp⟩

/-- The point of a cubic Bézier `C` command at parameter `t`
(the standard Bernstein form used by SVG to render the command). -/
noncomputable def bez (p0 p1 p2 p3 : Pt) (t : ℝ) : Pt :=
  ⟨(1 - t) ^ 3 * p0.x + 3 * (1 - t) ^ 2 * t * p1.x + 3 * (1 - t) * t ^ 2 * p2.x
      + t ^ 3 * p3.x,
    (1 - t) ^ 3 * p0.y + 3 * (1 - t) ^ 2 * t * p1.y + 3 * (1 - t) * t ^ 2 * p2.y
      + t ^ 3 * p3.y⟩

/-- Default segment used for out-of-range indices. -/
noncomputable def seg0 : CubicSeg := ⟨⟨0, 0⟩, ⟨0, 0⟩, ⟨0, 0⟩⟩

/-- The point at parameter `t` on the `j`-th cubic segment of a composed
path: the segment's start point is the previous segment's end point (the
path's current point `start` for the first segment). -/
noncomputable def pathPoint (segs : List CubicSeg) (start : Pt) (j : ℕ) (t : ℝ) : Pt :=
  let s := segs.getD j seg0
  let p0 := if j = 0 then start else (segs.getD (j - 1) seg0).endp
  bez p0 s.c1 s.c2 s.endp t

/-! ## Board and engine: the `PuzzleBoard` components (numbers as rationals) -/

/-- A 2-d position of the engine (piece positions, pointer samples).  The
engine uses only field arithmetic and comparisons, so its floating-point
numbers are modelled as rationals and every engine definition is
executable. -/
@[ext] structure Pos where
  x : ℚ
  y : ℚ
deriving DecidableEq

/-- The four side specifications a piece hands to
`PieceGenerator.generatePath` (buildPieces lines 191-196 of the unnamed
`PuzzleBoard` variant).  The piece's SVG path string is a pure function of
this record, so the embedded piece carries it as its `path`. -/
structure PathSpec where
  top : SideSpec
  right : SideSpec
  bottom : SideSpec
  left : SideSpec
deriving DecidableEq

/-- Piece record (`interface PuzzlePieceData` of `src/types.ts`).  Grid
coordinates are signed integers as in the source. -/
structure PuzzlePieceData where
  id : ℕ
  groupId : ℕ
  row : ℤ
  col : ℤ
  top : SideType
  right : SideType
  bottom : SideType
  left : SideType
  path : PathSpec
  position : Pos
  correctPosition : Pos
  isSolved : Bool
deriving DecidableEq

/-- `invertSide`: Tab ↔ Slot, Flat fixed. -/
def invertSide : SideType → SideType
  | TAB => SLOT
  | SLOT => TAB
  | FLAT => FLAT

/-- A border lattice entry (`type Edge = { type: SideType; seed: number }`). -/
structure Edge where
  type : SideType
  seed : ℕ
deriving DecidableEq

/-- The seed `buildPieces`'s counter assigns to the interior vertical
border slot `vEdges[r][c]` (`1 ≤ c ≤ cols - 1`): the counter starts at 1
and walks the vertical lattice row-major first. -/
def vSeedIdx (cols r c : ℕ) : ℕ :=
  1 + r * (cols - 1) + (c - 1)

/-- The seed assigned to the interior horizontal border slot
`hEdges[r][c]` (`1 ≤ r ≤ rows - 1`): the counter continues after the
`rows * (cols - 1)` vertical seeds, walking the horizontal lattice
row-major. -/
def hSeedIdx (rows cols r c : ℕ) : ℕ :=
  1 + rows * (cols - 1) + (r - 1) * cols + c

/-- The vertical border lattice `vEdges` built by `buildPieces`: interior
slots get a fresh seed and a kind drawn from `Math.random() > 0.5`
(modelled by the oracle `coin`, indexed by the border's seed, the draws
being made in seed order); all other slots stay `{FLAT, 0}`. -/
def vEdge (rows cols : ℕ) (coin : ℕ → Bool) (r c : ℕ) : Edge :=
  if r < rows ∧ 1 ≤ c ∧ c < cols then
    ⟨if coin (vSeedIdx cols r c) then TAB else SLOT, vSeedIdx cols r c⟩
  else ⟨FLAT, 0⟩

/-- The horizontal border lattice `hEdges` built by `buildPieces`. -/
def hEdge (rows cols : ℕ) (coin : ℕ → Bool) (r c : ℕ) : Edge :=
  if 1 ≤ r ∧ r < rows ∧ c < cols then
    ⟨if coin (hSeedIdx rows cols r c) then TAB else SLOT, hSeedIdx rows cols r c⟩
  else ⟨FLAT, 0⟩

/-- The piece `buildPieces` creates for cell `(r, c)`: boundary sides are
forced Flat with seed 0, the top/left sides read their lattice entry with
inverted kind, the bottom/right sides read it directly; the path is
generated with `reverse = true` exactly on the bottom and left sides; the
piece id and initial group id are the running counter `r * cols + c`; the
scatter slot for that id (after shuffling and the shortfall fallback) is
the oracle `scatter`; the target position is `(c * pieceSize, r *
pieceSize)`. -/
def mkPiece (rows cols : ℕ) (pieceSize : ℚ) (coin : ℕ → Bool) (scatter : ℕ → Pos)
    (r c : ℕ) : PuzzlePieceData :=
  let topEdge := hEdge rows cols coin r c
  let bottomEdge := hEdge rows cols coin (r + 1) c
  let leftEdge := vEdge rows cols coin r c
  let rightEdge := vEdge rows cols coin r (c + 1)
  let myTopType := if r = 0 then FLAT else invertSide topEdge.type
  let myBottomType := if r = rows - 1 then FLAT else bottomEdge.type
  let myLeftType := if c = 0 then FLAT else invertSide leftEdge.type
  let myRightType := if c = cols - 1 then FLAT else rightEdge.type
  let seedTop := if r = 0 then 0 else topEdge.seed
  let seedBottom := if r = rows - 1 then 0 else bottomEdge.seed
  let seedLeft := if c = 0 then 0 else leftEdge.seed
  let seedRight := if c = cols - 1 then 0 else rightEdge.seed
  { id := r * cols + c
    groupId := r * cols + c
    row := (r : ℤ)
    col := (c : ℤ)
    top := myTopType
    right := myRightType
    bottom := myBottomType
    left := myLeftType
    path := ⟨⟨myTopType, seedTop, false⟩, ⟨myRightType, seedRight, false⟩,
      ⟨myBottomType, seedBottom, true⟩, ⟨myLeftType, seedLeft, true⟩⟩
    position := scatter (r * cols + c)
    correctPosition := ⟨(c : ℚ) * pieceSize, (r : ℚ) * pieceSize⟩
    isSolved := false }

/-- `buildPieces`: the full piece list, cells in row-major order.  The
source performs no validation of `rows`, `cols` or `pieceSize`. -/
def buildPieces (rows cols : ℕ) (pieceSize : ℚ) (coin : ℕ → Bool)
    (scatter : ℕ → Pos) : List PuzzlePieceData :=
  (List.range rows).flatMap fun r =>
    (List.range cols).map fun c => mkPiece rows cols pieceSize coin scatter r c

/-- The pair test of `checkConnection` (`src/components/PuzzleBoard.tsx`
lines 278-291): grid adjacency (Manhattan distance 1) and both axis
deviations of the actual position delta from the ideal grid offset
strictly below the snap threshold. -/
def qualifies (pieceSize thr : ℚ) (a b : PuzzlePieceData) : Bool :=
  ((a.col - b.col).natAbs + (a.row - b.row).natAbs = 1 : Bool) &&
  (|a.position.x - b.position.x - ((a.col - b.col : ℤ) : ℚ) * pieceSize| < thr : Bool) &&
  (|a.position.y - b.position.y - ((a.row - b.row : ℤ) : ℚ) * pieceSize| < thr : Bool)

/-- The double scan of `checkConnection`: the first qualifying pair, the
outer loop running over the active group in list order, the inner loop
over the other pieces. -/
def findSnap (pieceSize thr : ℚ) (active others : List PuzzlePieceData) :
    Option (PuzzlePieceData × PuzzlePieceData) :=
  active.findSome? fun a =>
    (others.find? fun b => qualifies pieceSize thr a b).map fun b => (a, b)

/-- `checkConnection(activeGroupId)` of `src/components/PuzzleBoard.tsx`:
on the first qualifying pair `(a, b)`, translate every piece of the active
group by the correction vector that makes `a` exactly satisfy the ideal
offset relative to `b`, reassign the whole active group to `b`'s group,
mark the group and `b` solved, and stop after this one merge.  The
returned flag is `merged` (it drives the snap sound and the cleared
check). -/
def checkConnection (pieceSize thr : ℚ) (pieces : List PuzzlePieceData)
    (activeGroupId : ℕ) : List PuzzlePieceData × Bool :=
  let activeGroup := pieces.filter fun p => p.groupId == activeGroupId
  let otherPieces := pieces.filter fun p => !(p.groupId == activeGroupId)
  match findSnap pieceSize thr activeGroup otherPieces with
  | none => (pieces, false)
  | some (a, b) =>
    let correctionX := ((a.col - b.col : ℤ) : ℚ) * pieceSize - (a.position.x - b.position.x)
    let correctionY := ((a.row - b.row : ℤ) : ℚ) * pieceSize - (a.position.y - b.position.y)
    (pieces.map fun p =>
      if p.groupId == activeGroupId then
        { p with
            position := ⟨p.position.x + correctionX, p.position.y + correctionY⟩
            groupId := b.groupId
            isSolved := true }
      else if p.id == b.id then { p with isSolved := true }
      else p, true)

/-- `mergeGroupsIfSnapped(a, b)` of the unnamed `PuzzleBoard` variant:
when the deviation of the actual delta from the ideal (target-derived)
delta is within the threshold on both axes, every piece of `b`'s group is
translated by `(-dx, -dy)` and reassigned to `a`'s group. -/
def mergeGroupsIfSnapped (thr : ℚ) (a b : PuzzlePieceData)
    (prev : List PuzzlePieceData) : List PuzzlePieceData × Bool :=
  let dx := (a.correctPosition.x - b.correctPosition.x) + (b.position.x - a.position.x)
  let dy := (a.correctPosition.y - b.correctPosition.y) + (b.position.y - a.position.y)
  if |dx| ≤ thr ∧ |dy| ≤ thr then
    (prev.map fun p =>
      if p.groupId == b.groupId then
        { p with
            groupId := a.groupId
            position := ⟨p.position.x - dx, p.position.y - dy⟩ }
      else p, true)
  else (prev, false)

/-- The completion check run at the end of `handleDragEnd` in the unnamed
`PuzzleBoard` variant (lines 335-350): when every piece's position is
within `snapThreshold` of its target on both axes, every piece is snapped
exactly onto its target with its solved flag set and the cleared state is
signalled; otherwise nothing changes. -/
def checkClearedUpdate (thr : ℚ) (prev : List PuzzlePieceData) :
    List PuzzlePieceData × Bool :=
  if prev.all fun p =>
      (|p.position.x - p.correctPosition.x| ≤ thr : Bool) &&
      (|p.position.y - p.correctPosition.y| ≤ thr : Bool) then
    (prev.map fun p => { p with isSolved := true, position := p.correctPosition }, true)
  else (prev, false)

/-- The board-level interaction state handled by the drag callbacks. -/
structure BoardState where
  pieces : List PuzzlePieceData
  draggingGroupId : Option ℕ
  dragStartPos : Option Pos
  isCleared : Bool

/-- `handleDragMove`: ignore the move when cleared or when no drag is
active; otherwise translate every piece of the active group by the
pointer's delta since the previous sample and update the reference
sample. -/
def handleDragMove (st : BoardState) (svgPoint : Pos) : BoardState :=
  if st.isCleared then st
  else
    match st.draggingGroupId, st.dragStartPos with
    | some gid, some sp =>
      let dx := svgPoint.x - sp.x
      let dy := svgPoint.y - sp.y
      { st with
        pieces := st.pieces.map fun p =>
          if p.groupId == gid then
            { p with position := ⟨p.position.x + dx, p.position.y + dy⟩ }
          else p,
        dragStartPos := some svgPoint }
    | _, _ => st

/-- The point of the rendered piece in board coordinates:
`PuzzlePiece` (`src/components/PuzzlePiece.tsx`) applies
`translate(position) scale(pieceSize / 100)` to the 100×100-local path. -/
noncomputable def globalPoint (pieceSize : ℚ) (position : Pos) (p : Pt) : Pt :=
  ⟨(position.x : ℝ) + (pieceSize : ℝ) / 100 * p.x,
    (position.y : ℝ) + (pieceSize : ℝ) / 100 * p.y⟩

/-- The segments the top side contributes to `generatePath`'s path:
`sideToPath(sides.top, p0, p1)` with `p0 = (0,0)`, `p1 = (100,0)`. -/
noncomputable def topSegs (ps : PathSpec) : List CubicSeg :=
  sideSegments ps.top ⟨0, 0⟩ ⟨100, 0⟩

/-- `sideToPath(sides.right, p1, p2)` with `p2 = (100,100)`. -/
noncomputable def rightSegs (ps : PathSpec) : List CubicSeg :=
  sideSegments ps.right ⟨100, 0⟩ ⟨100, 100⟩

/-- `sideToPath(sides.bottom, p2, p3)` with `p3 = (0,100)`. -/
noncomputable def bottomSegs (ps : PathSpec) : List CubicSeg :=
  sideSegments ps.bottom ⟨100, 100⟩ ⟨0, 100⟩

/-- `sideToPath(sides.left, p3, p0)`. -/
noncomputable def leftSegs (ps : PathSpec) : List CubicSeg :=
  sideSegments ps.left ⟨0, 100⟩ ⟨0, 0⟩

/-- A flat side specification, for concrete test pieces. -/
def flatSpec : SideSpec := ⟨FLAT, 0, false⟩

/-- An all-flat path, for concrete test pieces. -/
def flatPath : PathSpec := ⟨flatSpec, flatSpec, flatSpec, flatSpec⟩

/-- Concrete piece for the snap-merge witness: cell `(0,0)`, exactly on its
target. -/
def demoA : PuzzlePieceData :=
  { id := 0, groupId := 0, row := 0, col := 0, top := FLAT, right := FLAT,
    bottom := FLAT, left := FLAT, path := flatPath, position := ⟨0, 0⟩,
    correctPosition := ⟨0, 0⟩, isSolved := false }

/-- Concrete piece for the snap-merge witness: cell `(0,1)`, one unit off
the ideal `(100, 0)` offset from `demoA`. -/
def demoB : PuzzlePieceData :=
  { id := 1, groupId := 1, row := 0, col := 1, top := FLAT, right := FLAT,
    bottom := FLAT, left := FLAT, path := flatPath, position := ⟨99, 1⟩,
    correctPosition := ⟨100, 0⟩, isSolved := false }

/-- The two-piece board of the snap-merge witness. -/
def demoPieces : List PuzzlePieceData := [demoA, demoB]

/-- The cache state after one generator call with length `100.00001`,
whose `toFixed(4)` key collides with the key of length `100`. -/
noncomputable def collideCache : EdgeCache :=
  (getBaseEdgeSegments (100 + 1 / 100000) 1 []).2

/-! ## Theorems -/

/-- Claim C5: reversing a base edge profile is an exact retrace.  For every
seed and length, `reverseSegments` on the base profile reverses the segment
order, swaps every segment's two control points' roles and reflects each
local `x` to `len - x` (first conjunct); the reversed four-segment path
runs from `(0,0)` to `(len,0)` (second and third conjuncts); its point at
parameter `t` on segment `3 - j` equals the forward path's point at
parameter `1 - t` on segment `j` under the reflection `x ↦ len - x` (fourth
conjunct); and reversing twice returns the original segments (fifth
conjunct).  Proved for every real length, which covers the claim's
`len > 0`. -/
theorem reverse_retrace (len : ℝ) (seed : ℕ) :
    (∀ j : Fin 4,
      (reverseSegments (computeSegs len seed) len).getD (3 - (j : ℕ)) seg0 =
        ⟨⟨len - ((computeSegs len seed).getD (j : ℕ) seg0).c2.x,
            ((computeSegs len seed).getD (j : ℕ) seg0).c2.y⟩,
          ⟨len - ((computeSegs len seed).getD (j : ℕ) seg0).c1.x,
            ((computeSegs len seed).getD (j : ℕ) seg0).c1.y⟩,
          ⟨len - (if (j : ℕ) = 0 then (⟨0, 0⟩ : Pt)
              else ((computeSegs len seed).getD ((j : ℕ) - 1) seg0).endp).x,
            (if (j : ℕ) = 0 then (⟨0, 0⟩ : Pt)
              else ((computeSegs len seed).getD ((j : ℕ) - 1) seg0).endp).y⟩⟩) ∧
    pathPoint (reverseSegments (computeSegs len seed) len) ⟨0, 0⟩ 0 0 = ⟨0, 0⟩ ∧
    pathPoint (reverseSegments (computeSegs len seed) len) ⟨0, 0⟩ 3 1 = ⟨len, 0⟩ ∧
    (∀ j : Fin 4, ∀ t : ℝ,
      pathPoint (reverseSegments (computeSegs len seed) len) ⟨0, 0⟩ (3 - (j : ℕ)) (1 - t) =
        ⟨len - (pathPoint (computeSegs len seed) ⟨0, 0⟩ (j : ℕ) t).x,
          (pathPoint (computeSegs len seed) ⟨0, 0⟩ (j : ℕ) t).y⟩) ∧
    reverseSegments (reverseSegments (computeSegs len seed) len) len =
      computeSegs len seed := by
  refine ⟨?_, ?_, ?_, ?_, ?_⟩
  · intro j
    fin_cases j <;>
      simp [computeSegs, reverseSegments, seg0]
  · simp [computeSegs, reverseSegments, pathPoint, bez, seg0]
  · simp [computeSegs, reverseSegments, pathPoint, bez, seg0]
  · intro j t
    fin_cases j <;>
      simp only [computeSegs, reverseSegments, pathPoint, bez, seg0] <;>
      simp <;> (repeat' apply And.intro) <;> ring
  · simp [computeSegs, reverseSegments]

/-- Claim C7 (amended): per-key determinism of the cached edge-profile
generator.  A call immediately after a call with the same `(seed, length)`
returns the same segments (first conjunct); when the cache holds no entry
for the key — the seed with the length rounded to four decimals — the call
returns exactly the freshly computed profile (second conjunct), in
particular from the empty cache (third conjunct).  The claim's stronger
form — the same result regardless of the cache's prior contents, a cached
result always equal to the freshly computed one — fails because the key
rounds the length (see `edge_cache_collision_counterexample`). -/
theorem edge_determinism_amended (len : ℝ) (seed : ℕ) (cache : EdgeCache) :
    (getBaseEdgeSegments len seed (getBaseEdgeSegments len seed cache).2).1 =
      (getBaseEdgeSegments len seed cache).1 ∧
    (List.lookup (seed, toFixed4 len) cache = none →
      (getBaseEdgeSegments len seed cache).1 = computeSegs len seed) ∧
    (getBaseEdgeSegments len seed ([] : EdgeCache)).1 = computeSegs len seed := by
  refine ⟨?_, ?_, ?_⟩
  · unfold getBaseEdgeSegments
    rcases h : List.lookup (seed, toFixed4 len) cache with _ | segs
    · simp [h, List.lookup]
    · simp [h]
  · intro h
    simp [getBaseEdgeSegments, h]
  · simp [getBaseEdgeSegments, List.lookup]

/-- Claim C7 (counterexample): the cache key rounds the length to four
decimals, so after a call with length `100.00001` a call with length `100`
returns the cached profile computed for `100.00001`, which differs from
the freshly computed profile for `100` (already in the first control
point's `x`, `100.00001 * 0.2` versus `100 * 0.2`).  This refutes "every
call returns identical control points regardless of the cache's prior
contents" and "a cached result equals the freshly computed one". -/
theorem edge_cache_collision_counterexample :
    (getBaseEdgeSegments 100 1 collideCache).1 ≠ computeSegs 100 1 := by
  have hk1 : toFixed4 (100 + 1 / 100000) = 1000000 := by
    unfold toFixed4
    rw [Int.floor_eq_iff]
    norm_num
  have hk2 : toFixed4 (100 : ℝ) = 1000000 := by
    unfold toFixed4
    rw [Int.floor_eq_iff]
    norm_num
  have hres : (getBaseEdgeSegments 100 1 collideCache).1 =
      computeSegs (100 + 1 / 100000) 1 := by
    unfold collideCache getBaseEdgeSegments
    rw [hk1, hk2]
    simp [List.lookup]
  rw [hres]
  intro h
  have hx := congrArg (fun l => (l.getD 0 seg0).c1.x) h
  simp [computeSegs, seg0] at hx
  norm_num at hx

/-- Claim C2: the completion check of the unnamed `PuzzleBoard` variant's
`handleDragEnd` signals the cleared state exactly when every piece's
position is within `snapThreshold` of its target on both axes (per-axis
absolute deviation); a piece that is `snapThreshold + 1` away on one axis
prevents clearance; and on completion every piece's position is set
exactly to its target and every solved flag is set. -/
theorem completion_criterion (thr : ℚ) (prev : List PuzzlePieceData) :
    ((checkClearedUpdate thr prev).2 = true ↔
      ∀ p ∈ prev, |p.position.x - p.correctPosition.x| ≤ thr ∧
        |p.position.y - p.correctPosition.y| ≤ thr) ∧
    (∀ p ∈ prev,
      (|p.position.x - p.correctPosition.x| = thr + 1 ∨
        |p.position.y - p.correctPosition.y| = thr + 1) →
      (checkClearedUpdate thr prev).2 = false) ∧
    ((checkClearedUpdate thr prev).2 = true →
      ∀ q ∈ (checkClearedUpdate thr prev).1,
        q.position = q.correctPosition ∧ q.isSolved = true) := by
  have hflag : (checkClearedUpdate thr prev).2 = true ↔
      ∀ p ∈ prev, |p.position.x - p.correctPosition.x| ≤ thr ∧
        |p.position.y - p.correctPosition.y| ≤ thr := by
    unfold checkClearedUpdate
    split
    · rename_i hall
      simp only [List.all_eq_true, Bool.and_eq_true, decide_eq_true_eq] at hall
      simpa using hall
    · rename_i hall
      simp only [List.all_eq_true, Bool.and_eq_true, decide_eq_true_eq] at hall
      simpa using hall
  refine ⟨hflag, ?_, ?_⟩
  · intro p hp hax
    rw [← Bool.not_eq_true]
    intro htrue
    rcases (hflag.mp htrue) p hp with ⟨hx, hy⟩
    rcases hax with h | h
    · rw [h] at hx
      linarith
    · rw [h] at hy
      linarith
  · intro htrue q hq
    unfold checkClearedUpdate at htrue hq
    split at htrue
    · rename_i hall
      simp only [hall, if_true] at hq
      rcases List.mem_map.mp hq with ⟨p, _, rfl⟩
      exact ⟨rfl, rfl⟩
    · simp at htrue

/-- Claim C9 (amended): `buildPieces` performs no validation of its
parameters.  A rebuild with `rows = 0` or `cols = 0` yields an empty piece
list — so no partial piece set exists — but nothing is rejected before
layout planning, and the build always produces exactly `rows * cols`
pieces even when the cell size is non-positive (see
`build_no_validation_counterexample`). -/
theorem degenerate_build_amended (rows cols : ℕ) (pieceSize : ℚ) (coin : ℕ → Bool)
    (scatter : ℕ → Pos) :
    (rows = 0 ∨ cols = 0 → buildPieces rows cols pieceSize coin scatter = []) ∧
    (buildPieces rows cols pieceSize coin scatter).length = rows * cols := by
  constructor
  · rintro (rfl | rfl) <;> simp [buildPieces]
  · simp only [buildPieces, List.length_flatMap]
    have hlen : (List.length ∘ fun r =>
        List.map (fun c => mkPiece rows cols pieceSize coin scatter r c) (List.range cols)) =
        fun _ => cols := by
      funext r
      simp
    rw [hlen, List.map_const', List.sum_replicate, smul_eq_mul, List.length_range]

/-- Claim C9 (counterexample): a rebuild request with the non-positive
cell size `-1` (and positive rows and cols) is not rejected: it produces a
non-empty piece set of one piece, refuting "non-positive rows, cols, or
cellSize is rejected before layout planning and produces no pieces at
all". -/
theorem build_no_validation_counterexample :
    (buildPieces 1 1 (-1) (fun _ => true) (fun _ => ⟨0, 0⟩)).length = 1 ∧
    buildPieces 1 1 (-1) (fun _ => true) (fun _ => ⟨0, 0⟩) ≠ [] := by
  constructor
  · rfl
  · decide

/-- Claim C4 (amended): in the layout planner the top and left sides of a
cell read their lattice entries with inverted kind while the bottom and
right sides read them directly with the authored kind; boundary sides
(`r = 0` top, `r = rows - 1` bottom, `c = 0` left, `c = cols - 1` right)
are forced Flat with seed 0; but the traversal flags handed to the path
generator are the claim's swapped: `reverse` is `false` on top and right
and `true` on bottom and left (the clockwise path traces the bottom
right-to-left and the left bottom-to-top), refuted as stated by
`layout_traversal_counterexample`. -/
theorem layout_sides_amended (rows cols : ℕ) (pieceSize : ℚ) (coin : ℕ → Bool)
    (scatter : ℕ → Pos) (r c : ℕ) :
    ((mkPiece rows cols pieceSize coin scatter r c).path.top.reverse = false ∧
      (mkPiece rows cols pieceSize coin scatter r c).path.right.reverse = false ∧
      (mkPiece rows cols pieceSize coin scatter r c).path.bottom.reverse = true ∧
      (mkPiece rows cols pieceSize coin scatter r c).path.left.reverse = true) ∧
    (r = 0 → (mkPiece rows cols pieceSize coin scatter r c).path.top = ⟨FLAT, 0, false⟩) ∧
    (r ≠ 0 → (mkPiece rows cols pieceSize coin scatter r c).path.top =
      ⟨invertSide (hEdge rows cols coin r c).type, (hEdge rows cols coin r c).seed, false⟩) ∧
    (r = rows - 1 →
      (mkPiece rows cols pieceSize coin scatter r c).path.bottom = ⟨FLAT, 0, true⟩) ∧
    (r ≠ rows - 1 → (mkPiece rows cols pieceSize coin scatter r c).path.bottom =
      ⟨(hEdge rows cols coin (r + 1) c).type, (hEdge rows cols coin (r + 1) c).seed, true⟩) ∧
    (c = 0 → (mkPiece rows cols pieceSize coin scatter r c).path.left = ⟨FLAT, 0, true⟩) ∧
    (c ≠ 0 → (mkPiece rows cols pieceSize coin scatter r c).path.left =
      ⟨invertSide (vEdge rows cols coin r c).type, (vEdge rows cols coin r c).seed, true⟩) ∧
    (c = cols - 1 →
      (mkPiece rows cols pieceSize coin scatter r c).path.right = ⟨FLAT, 0, false⟩) ∧
    (c ≠ cols - 1 → (mkPiece rows cols pieceSize coin scatter r c).path.right =
      ⟨(vEdge rows cols coin r (c + 1)).type, (vEdge rows cols coin r (c + 1)).seed, false⟩) := by
  refine ⟨⟨?_, ?_, ?_, ?_⟩, ?_, ?_, ?_, ?_, ?_, ?_, ?_, ?_⟩ <;>
    first
    | (intro h; simp [mkPiece, h])
    | simp [mkPiece]

/-- Claim C4 (counterexample): on a 2×1 board, cell `(1,0)`'s top side is
interior (its border seed is not 0) yet is handed to the generator with
`reverse = false`, and cell `(0,0)`'s interior bottom side is handed
`reverse = true` — the opposite of the claim's "top … reversed traversal,
bottom … forward traversal". -/
theorem layout_traversal_counterexample :
    (mkPiece 2 1 60 (fun _ => true) (fun _ => ⟨0, 0⟩) 1 0).path.top.seed ≠ 0 ∧
    (mkPiece 2 1 60 (fun _ => true) (fun _ => ⟨0, 0⟩) 1 0).path.top.reverse = false ∧
    (mkPiece 2 1 60 (fun _ => true) (fun _ => ⟨0, 0⟩) 0 0).path.bottom.seed ≠ 0 ∧
    (mkPiece 2 1 60 (fun _ => true) (fun _ => ⟨0, 0⟩) 0 0).path.bottom.reverse = true := by
  decide

/-- Claim C10: a pointer-move event is a no-op when the board is cleared
or no drag is active; otherwise it translates every piece of the active
cluster by the same pointer delta, changes nothing but the `position`
field of those pieces (id, row, col, groupId, sides, path,
correctPosition and isSolved are all unchanged), and leaves every piece
outside the active cluster entirely unchanged. -/
theorem drag_move_frame (st : BoardState) (pt : Pos) :
    (st.isCleared = true → handleDragMove st pt = st) ∧
    (st.draggingGroupId = none → handleDragMove st pt = st) ∧
    (st.dragStartPos = none → handleDragMove st pt = st) ∧
    (∀ gid sp, st.isCleared = false → st.draggingGroupId = some gid →
      st.dragStartPos = some sp →
      (handleDragMove st pt).pieces.length = st.pieces.length ∧
      ∀ (i : ℕ) (p : PuzzlePieceData), st.pieces[i]? = some p →
        ∃ q : PuzzlePieceData, (handleDragMove st pt).pieces[i]? = some q ∧
          q.id = p.id ∧ q.groupId = p.groupId ∧ q.row = p.row ∧ q.col = p.col ∧
          q.top = p.top ∧ q.right = p.right ∧ q.bottom = p.bottom ∧
          q.left = p.left ∧ q.path = p.path ∧
          q.correctPosition = p.correctPosition ∧ q.isSolved = p.isSolved ∧
          (p.groupId = gid →
            q.position = ⟨p.position.x + (pt.x - sp.x), p.position.y + (pt.y - sp.y)⟩) ∧
          (p.groupId ≠ gid → q = p)) := by
  refine ⟨?_, ?_, ?_, ?_⟩
  · intro h
    simp [handleDragMove, h]
  · intro h
    unfold handleDragMove
    rw [h]
    rcases st.dragStartPos with _ | sp <;> cases st.isCleared <;> simp
  · intro h
    unfold handleDragMove
    rw [h]
    rcases st.draggingGroupId with _ | gid <;> cases st.isCleared <;> simp
  · intro gid sp h0 h1 h2
    constructor
    · simp [handleDragMove, h0, h1, h2]
    · intro i p hp
      by_cases hpg : p.groupId = gid
      · refine ⟨{ p with
            position := ⟨p.position.x + (pt.x - sp.x), p.position.y + (pt.y - sp.y)⟩ },
            ?_, ?_⟩
        · simp [handleDragMove, h0, h1, h2, List.getElem?_map, hp, hpg]
        · simp [hpg]
      · refine ⟨p, ?_, ?_⟩
        · simp [handleDragMove, h0, h1, h2, List.getElem?_map, hp, hpg]
        · simp [hpg]

/-- Mapping a list maps the entry at every index. -/
theorem getElem?_map_of_eq {α β : Type _} (f : α → β) {l : List α} {i : ℕ} {x : α}
    (h : l[i]? = some x) : (l.map f)[i]? = some (f x) := by
  simp [List.getElem?_map, h]

/-- Claim C8: merges are rigid translations.  For both merge routines of
the repository (`checkConnection` of `src/components/PuzzleBoard.tsx` and
`mergeGroupsIfSnapped` of the unnamed variant), any two pieces that were
in the same cluster before the merge have exactly the same relative
position delta afterwards: the merge translates whole clusters and never
repositions pieces within a cluster. -/
theorem rigid_translation_invariant (pieceSize thr : ℚ) :
    (∀ (pieces : List PuzzlePieceData) (gid : ℕ) (i j : ℕ) (p q : PuzzlePieceData),
      pieces[i]? = some p → pieces[j]? = some q → p.groupId = q.groupId →
      ∃ p' q', (checkConnection pieceSize thr pieces gid).1[i]? = some p' ∧
        (checkConnection pieceSize thr pieces gid).1[j]? = some q' ∧
        p'.position.x - q'.position.x = p.position.x - q.position.x ∧
        p'.position.y - q'.position.y = p.position.y - q.position.y) ∧
    (∀ (a b : PuzzlePieceData) (prev : List PuzzlePieceData) (i j : ℕ)
      (p q : PuzzlePieceData),
      prev[i]? = some p → prev[j]? = some q → p.groupId = q.groupId →
      ∃ p' q', (mergeGroupsIfSnapped thr a b prev).1[i]? = some p' ∧
        (mergeGroupsIfSnapped thr a b prev).1[j]? = some q' ∧
        p'.position.x - q'.position.x = p.position.x - q.position.x ∧
        p'.position.y - q'.position.y = p.position.y - q.position.y) := by
  constructor
  · intro pieces gid i j p q hi hj hg
    simp only [checkConnection]
    rcases hfs : findSnap pieceSize thr (pieces.filter fun p => p.groupId == gid)
        (pieces.filter fun p => !(p.groupId == gid)) with _ | ⟨a, b⟩
    · exact ⟨p, q, by simp [hi], by simp [hj], rfl, rfl⟩
    · refine ⟨_, _, getElem?_map_of_eq _ hi, getElem?_map_of_eq _ hj, ?_, ?_⟩ <;>
        by_cases hpg : p.groupId = gid
      case pos =>
        have hqg : q.groupId = gid := hg ▸ hpg
        simp [hpg, hqg]
      case neg =>
        have hqg : ¬q.groupId = gid := fun h => hpg (hg ▸ h)
        by_cases hpb : p.id = b.id <;> by_cases hqb : q.id = b.id <;>
          simp [hpg, hqg, hpb, hqb]
      case pos =>
        have hqg : q.groupId = gid := hg ▸ hpg
        simp [hpg, hqg]
      case neg =>
        have hqg : ¬q.groupId = gid := fun h => hpg (hg ▸ h)
        by_cases hpb : p.id = b.id <;> by_cases hqb : q.id = b.id <;>
          simp [hpg, hqg, hpb, hqb]
  · intro a b prev i j p q hi hj hg
    simp only [mergeGroupsIfSnapped]
    split
    · refine ⟨_, _, getElem?_map_of_eq _ hi, getElem?_map_of_eq _ hj, ?_, ?_⟩ <;>
        by_cases hpg : p.groupId = b.groupId
      case pos =>
        have hqg : q.groupId = b.groupId := hg ▸ hpg
        simp [hpg, hqg]
      case neg =>
        have hqg : ¬q.groupId = b.groupId := fun h => hpg (hg ▸ h)
        simp [hpg, hqg]
      case pos =>
        have hqg : q.groupId = b.groupId := hg ▸ hpg
        simp [hpg, hqg]
      case neg =>
        have hqg : ¬q.groupId = b.groupId := fun h => hpg (hg ▸ h)
        simp [hpg, hqg]
    · exact ⟨p, q, by simp [hi], by simp [hj], rfl, rfl⟩

/-- Claim C3: first-match cluster merge on drag release, as implemented by
`checkConnection` of `src/components/PuzzleBoard.tsx`.  When the
first-match scan finds a qualifying pair `(a, b)` — `a` in the active
cluster, `b` a grid-adjacent piece of another cluster whose actual
position delta is within the snap threshold of the ideal grid offset on
both axes — then: the merged flag (the snap event) is signalled; the
correction vector makes `a` exactly satisfy the ideal offset relative to
`b`; every piece of the active cluster is translated by that same
correction, reassigned to `b`'s cluster identity and marked solved; `b` is
marked solved; and every other piece is untouched, so at most this one
merge happens for the release. -/
theorem snap_merge_first_match (pieceSize thr : ℚ) (pieces : List PuzzlePieceData)
    (gid : ℕ) (a b : PuzzlePieceData)
    (hfs : findSnap pieceSize thr (pieces.filter fun p => p.groupId == gid)
      (pieces.filter fun p => !(p.groupId == gid)) = some (a, b)) :
    (checkConnection pieceSize thr pieces gid).2 = true ∧
    a.groupId = gid ∧ b.groupId ≠ gid ∧
    (a.col - b.col).natAbs + (a.row - b.row).natAbs = 1 ∧
    |a.position.x - b.position.x - ((a.col - b.col : ℤ) : ℚ) * pieceSize| < thr ∧
    |a.position.y - b.position.y - ((a.row - b.row : ℤ) : ℚ) * pieceSize| < thr ∧
    (a.position.x +
        (((a.col - b.col : ℤ) : ℚ) * pieceSize - (a.position.x - b.position.x))) -
      b.position.x = ((a.col - b.col : ℤ) : ℚ) * pieceSize ∧
    (a.position.y +
        (((a.row - b.row : ℤ) : ℚ) * pieceSize - (a.position.y - b.position.y))) -
      b.position.y = ((a.row - b.row : ℤ) : ℚ) * pieceSize ∧
    (∀ (i : ℕ) (p : PuzzlePieceData), pieces[i]? = some p →
      ∃ q : PuzzlePieceData, (checkConnection pieceSize thr pieces gid).1[i]? = some q ∧
        (p.groupId = gid → q =
          { p with
              position := ⟨p.position.x +
                  (((a.col - b.col : ℤ) : ℚ) * pieceSize - (a.position.x - b.position.x)),
                p.position.y +
                  (((a.row - b.row : ℤ) : ℚ) * pieceSize - (a.position.y - b.position.y))⟩
              groupId := b.groupId
              isSolved := true }) ∧
        (p.groupId ≠ gid → p.id = b.id → q = { p with isSolved := true }) ∧
        (p.groupId ≠ gid → p.id ≠ b.id → q = p)) := by
  obtain ⟨ha, hbq⟩ : a ∈ pieces.filter (fun p => p.groupId == gid) ∧
      ((pieces.filter fun p => !(p.groupId == gid)).find? fun c =>
        qualifies pieceSize thr a c) = some b := by
    unfold findSnap at hfs
    obtain ⟨a', ha', hfa⟩ := List.exists_of_findSome?_eq_some hfs
    rcases hfind : (pieces.filter fun p => !(p.groupId == gid)).find? fun c =>
        qualifies pieceSize thr a' c with _ | b'
    · rw [hfind] at hfa
      simp at hfa
    · rw [hfind] at hfa
      simp only [Option.map_some', Option.some.injEq, Prod.mk.injEq] at hfa
      obtain ⟨rfl, rfl⟩ := hfa
      exact ⟨ha', hfind⟩
  have hields := List.find?_some hbq
  have hbmem := List.mem_of_find?_eq_some hbq
  have hagid : a.groupId = gid := by
    have := (List.mem_filter.mp ha).2
    simpa using this
  have hbgid : b.groupId ≠ gid := by
    have := (List.mem_filter.mp hbmem).2
    simpa using this
  have hq := hields
  rw [qualifies, Bool.and_eq_true, Bool.and_eq_true] at hq
  obtain ⟨⟨hq1, hq2⟩, hq3⟩ := hq
  refine ⟨?_, hagid, hbgid, by simpa using hq1, by simpa using hq2, by simpa using hq3,
    by ring, by ring, ?_⟩
  · simp only [checkConnection]
    rw [hfs]
  · intro i p hp
    simp only [checkConnection]
    rw [hfs]
    refine ⟨_, getElem?_map_of_eq _ hp, ?_, ?_, ?_⟩
    · intro hpg
      simp [hpg]
    · intro hpg hpb
      simp [hpg, hpb]
    · intro hpg hpb
      simp [hpg, hpb]

/-- Claim C3 (witness): on the concrete two-piece board `demoPieces`
(`demoB` one unit off the ideal offset from `demoA`, threshold 20), the
scan finds the pair `(demoA, demoB)` and the release merges: the snap
flag is signalled. -/
theorem snap_merge_first_match_witness :
    (checkConnection 100 20 demoPieces 0).2 = true :=
  (snap_merge_first_match 100 20 demoPieces 0 demoA demoB (by
    simp only [demoPieces, demoA, demoB, findSnap, qualifies, List.filter, List.find?,
      List.findSome?]
    norm_num)).1

/-- Interior vertical lattice slots hold a fresh seed and a coin-drawn
kind. -/
theorem vEdge_interior (rows cols : ℕ) (coin : ℕ → Bool) {r c : ℕ}
    (hr : r < rows) (hc1 : 1 ≤ c) (hc : c < cols) :
    vEdge rows cols coin r c =
      ⟨if coin (vSeedIdx cols r c) then TAB else SLOT, vSeedIdx cols r c⟩ := by
  simp [vEdge, hr, hc1, hc]

/-- Interior horizontal lattice slots hold a fresh seed and a coin-drawn
kind. -/
theorem hEdge_interior (rows cols : ℕ) (coin : ℕ → Bool) {r c : ℕ}
    (hr1 : 1 ≤ r) (hr : r < rows) (hc : c < cols) :
    hEdge rows cols coin r c =
      ⟨if coin (hSeedIdx rows cols r c) then TAB else SLOT, hSeedIdx rows cols r c⟩ := by
  simp [hEdge, hr1, hr, hc]

/-- A non-boundary right side reads the vertical lattice entry directly,
forward traversal. -/
theorem mkPiece_path_right (rows cols : ℕ) (pieceSize : ℚ) (coin : ℕ → Bool)
    (scatter : ℕ → Pos) {r c : ℕ} (hc : c + 1 < cols) :
    (mkPiece rows cols pieceSize coin scatter r c).path.right =
      ⟨(vEdge rows cols coin r (c + 1)).type, (vEdge rows cols coin r (c + 1)).seed,
        false⟩ := by
  have h : ¬(c = cols - 1) := by omega
  simp [mkPiece, h]

/-- A non-boundary left side reads the vertical lattice entry with
inverted kind, reversed traversal. -/
theorem mkPiece_path_left (rows cols : ℕ) (pieceSize : ℚ) (coin : ℕ → Bool)
    (scatter : ℕ → Pos) {r c : ℕ} (hc : c ≠ 0) :
    (mkPiece rows cols pieceSize coin scatter r c).path.left =
      ⟨invertSide (vEdge rows cols coin r c).type, (vEdge rows cols coin r c).seed,
        true⟩ := by
  simp [mkPiece, hc]

/-- A non-boundary top side reads the horizontal lattice entry with
inverted kind, forward traversal. -/
theorem mkPiece_path_top (rows cols : ℕ) (pieceSize : ℚ) (coin : ℕ → Bool)
    (scatter : ℕ → Pos) {r c : ℕ} (hr : r ≠ 0) :
    (mkPiece rows cols pieceSize coin scatter r c).path.top =
      ⟨invertSide (hEdge rows cols coin r c).type, (hEdge rows cols coin r c).seed,
        false⟩ := by
  simp [mkPiece, hr]

/-- A non-boundary bottom side reads the horizontal lattice entry
directly, reversed traversal. -/
theorem mkPiece_path_bottom (rows cols : ℕ) (pieceSize : ℚ) (coin : ℕ → Bool)
    (scatter : ℕ → Pos) {r c : ℕ} (hr : r + 1 < rows) :
    (mkPiece rows cols pieceSize coin scatter r c).path.bottom =
      ⟨(hEdge rows cols coin (r + 1) c).type, (hEdge rows cols coin (r + 1) c).seed,
        true⟩ := by
  have h : ¬(r = rows - 1) := by omega
  simp [mkPiece, h]

/-- The target position of cell `(r, c)`. -/
theorem mkPiece_correctPosition (rows cols : ℕ) (pieceSize : ℚ) (coin : ℕ → Bool)
    (scatter : ℕ → Pos) (r c : ℕ) :
    (mkPiece rows cols pieceSize coin scatter r c).correctPosition =
      ⟨(c : ℚ) * pieceSize, (r : ℚ) * pieceSize⟩ := rfl

/-- Row-major indices are injective. -/
theorem row_major_inj {w r i r₂ i₂ : ℕ} (hi : i < w) (hi₂ : i₂ < w)
    (h : r * w + i = r₂ * w + i₂) : r = r₂ ∧ i = i₂ := by
  rcases Nat.lt_trichotomy r r₂ with hlt | rfl | hgt
  · exfalso
    have h1 : (r + 1) * w ≤ r₂ * w := Nat.mul_le_mul_right _ hlt
    rw [Nat.succ_mul] at h1
    have h2 : r * w + i < r₂ * w + i₂ :=
      Nat.lt_of_lt_of_le (Nat.lt_of_lt_of_le (Nat.add_lt_add_left hi _) h1)
        (Nat.le_add_right _ _)
    exact absurd h (Nat.ne_of_lt h2)
  · exact ⟨rfl, Nat.add_left_cancel h⟩
  · exfalso
    have h1 : (r₂ + 1) * w ≤ r * w := Nat.mul_le_mul_right _ hgt
    rw [Nat.succ_mul] at h1
    have h2 : r₂ * w + i₂ < r * w + i :=
      Nat.lt_of_lt_of_le (Nat.lt_of_lt_of_le (Nat.add_lt_add_left hi₂ _) h1)
        (Nat.le_add_right _ _)
    exact absurd h.symm (Nat.ne_of_lt h2)

/-- Claim C6: for every interior border of a built board, the two
adjoining cells' resolved side kinds are exact logical inverses (Tab/Slot
pair); exactly one of the two cells uses the border's authored kind while
the other uses the inverted kind; both cells reference the same border
seed, which is positive and unique to that border (the vertical and
horizontal seed ranges are injective and disjoint); and a side's seed is 0
exactly when the side is Flat (which happens exactly on the boundary). -/
theorem border_inversion_invariant (rows cols : ℕ) (pieceSize : ℚ) (coin : ℕ → Bool)
    (scatter : ℕ → Pos) (r c : ℕ) :
    (r < rows → c + 1 < cols →
      ((mkPiece rows cols pieceSize coin scatter r c).path.right.type = TAB ∧
          (mkPiece rows cols pieceSize coin scatter r (c + 1)).path.left.type = SLOT) ∨
        ((mkPiece rows cols pieceSize coin scatter r c).path.right.type = SLOT ∧
          (mkPiece rows cols pieceSize coin scatter r (c + 1)).path.left.type = TAB)) ∧
    (r < rows → c + 1 < cols →
      (mkPiece rows cols pieceSize coin scatter r c).path.right.type =
        (vEdge rows cols coin r (c + 1)).type ∧
      (mkPiece rows cols pieceSize coin scatter r (c + 1)).path.left.type =
        invertSide (vEdge rows cols coin r (c + 1)).type ∧
      (mkPiece rows cols pieceSize coin scatter r (c + 1)).path.left.type ≠
        (vEdge rows cols coin r (c + 1)).type) ∧
    (r < rows → c + 1 < cols →
      (mkPiece rows cols pieceSize coin scatter r c).path.right.seed =
        vSeedIdx cols r (c + 1) ∧
      (mkPiece rows cols pieceSize coin scatter r (c + 1)).path.left.seed =
        vSeedIdx cols r (c + 1) ∧
      1 ≤ vSeedIdx cols r (c + 1)) ∧
    (r + 1 < rows → c < cols →
      (((mkPiece rows cols pieceSize coin scatter r c).path.bottom.type = TAB ∧
          (mkPiece rows cols pieceSize coin scatter (r + 1) c).path.top.type = SLOT) ∨
        ((mkPiece rows cols pieceSize coin scatter r c).path.bottom.type = SLOT ∧
          (mkPiece rows cols pieceSize coin scatter (r + 1) c).path.top.type = TAB))) ∧
    (r + 1 < rows → c < cols →
      (mkPiece rows cols pieceSize coin scatter r c).path.bottom.type =
        (hEdge rows cols coin (r + 1) c).type ∧
      (mkPiece rows cols pieceSize coin scatter (r + 1) c).path.top.type =
        invertSide (hEdge rows cols coin (r + 1) c).type ∧
      (mkPiece rows cols pieceSize coin scatter (r + 1) c).path.top.type ≠
        (hEdge rows cols coin (r + 1) c).type) ∧
    (r + 1 < rows → c < cols →
      (mkPiece rows cols pieceSize coin scatter r c).path.bottom.seed =
        hSeedIdx rows cols (r + 1) c ∧
      (mkPiece rows cols pieceSize coin scatter (r + 1) c).path.top.seed =
        hSeedIdx rows cols (r + 1) c ∧
      1 ≤ hSeedIdx rows cols (r + 1) c) ∧
    (∀ r₂ c₂ : ℕ, 1 ≤ c → c < cols → 1 ≤ c₂ → c₂ < cols →
      vSeedIdx cols r c = vSeedIdx cols r₂ c₂ → r = r₂ ∧ c = c₂) ∧
    (∀ r₂ c₂ : ℕ, 1 ≤ r → 1 ≤ r₂ → c < cols → c₂ < cols →
      hSeedIdx rows cols r c = hSeedIdx rows cols r₂ c₂ → r = r₂ ∧ c = c₂) ∧
    (∀ r₂ c₂ : ℕ, r < rows → 1 ≤ c → c < cols → 1 ≤ r₂ → c₂ < cols →
      vSeedIdx cols r c ≠ hSeedIdx rows cols r₂ c₂) ∧
    (r < rows → c < cols →
      ((mkPiece rows cols pieceSize coin scatter r c).path.top.seed = 0 ↔
        (mkPiece rows cols pieceSize coin scatter r c).path.top.type = FLAT) ∧
      ((mkPiece rows cols pieceSize coin scatter r c).path.right.seed = 0 ↔
        (mkPiece rows cols pieceSize coin scatter r c).path.right.type = FLAT) ∧
      ((mkPiece rows cols pieceSize coin scatter r c).path.bottom.seed = 0 ↔
        (mkPiece rows cols pieceSize coin scatter r c).path.bottom.type = FLAT) ∧
      ((mkPiece rows cols pieceSize coin scatter r c).path.left.seed = 0 ↔
        (mkPiece rows cols pieceSize coin scatter r c).path.left.type = FLAT)) := by
  refine ⟨?_, ?_, ?_, ?_, ?_, ?_, ?_, ?_, ?_, ?_⟩
  · intro hr hc
    rw [mkPiece_path_right rows cols pieceSize coin scatter hc,
      mkPiece_path_left rows cols pieceSize coin scatter (by omega : c + 1 ≠ 0),
      vEdge_interior rows cols coin hr (by omega) hc]
    rcases hcn : coin (vSeedIdx cols r (c + 1)) <;> simp [invertSide]
  · intro hr hc
    rw [mkPiece_path_right rows cols pieceSize coin scatter hc,
      mkPiece_path_left rows cols pieceSize coin scatter (by omega : c + 1 ≠ 0),
      vEdge_interior rows cols coin hr (by omega) hc]
    rcases hcn : coin (vSeedIdx cols r (c + 1)) <;> simp [invertSide]
  · intro hr hc
    rw [mkPiece_path_right rows cols pieceSize coin scatter hc,
      mkPiece_path_left rows cols pieceSize coin scatter (by omega : c + 1 ≠ 0),
      vEdge_interior rows cols coin hr (by omega) hc]
    refine ⟨rfl, rfl, by unfold vSeedIdx; omega⟩
  · intro hr hc
    rw [mkPiece_path_bottom rows cols pieceSize coin scatter hr,
      mkPiece_path_top rows cols pieceSize coin scatter (by omega : r + 1 ≠ 0),
      hEdge_interior rows cols coin (by omega) hr hc]
    rcases hcn : coin (hSeedIdx rows cols (r + 1) c) <;> simp [invertSide]
  · intro hr hc
    rw [mkPiece_path_bottom rows cols pieceSize coin scatter hr,
      mkPiece_path_top rows cols pieceSize coin scatter (by omega : r + 1 ≠ 0),
      hEdge_interior rows cols coin (by omega) hr hc]
    rcases hcn : coin (hSeedIdx rows cols (r + 1) c) <;> simp [invertSide]
  · intro hr hc
    rw [mkPiece_path_bottom rows cols pieceSize coin scatter hr,
      mkPiece_path_top rows cols pieceSize coin scatter (by omega : r + 1 ≠ 0),
      hEdge_interior rows cols coin (by omega) hr hc]
    refine ⟨rfl, rfl, by unfold hSeedIdx; omega⟩
  · intro r₂ c₂ hc1 hc hc1₂ hc₂ h
    unfold vSeedIdx at h
    have h' : r * (cols - 1) + (c - 1) = r₂ * (cols - 1) + (c₂ - 1) := by omega
    have := row_major_inj (by omega : c - 1 < cols - 1) (by omega : c₂ - 1 < cols - 1) h'
    omega
  · intro r₂ c₂ hr1 hr1₂ hc hc₂ h
    unfold hSeedIdx at h
    have h' : (r - 1) * cols + c = (r₂ - 1) * cols + c₂ := by omega
    have := row_major_inj hc hc₂ h'
    omega
  · intro r₂ c₂ hr hc1 hc hr1₂ hc₂ h
    unfold vSeedIdx hSeedIdx at h
    have hv : r * (cols - 1) + (c - 1) + 1 ≤ rows * (cols - 1) := by
      have h1 : (r + 1) * (cols - 1) ≤ rows * (cols - 1) :=
        Nat.mul_le_mul_right _ hr
      rw [Nat.succ_mul] at h1
      omega
    omega
  · intro hr hc
    refine ⟨?_, ?_, ?_, ?_⟩
    · rcases Nat.eq_zero_or_pos r with rfl | hr1
      · simp [mkPiece]
      · rw [mkPiece_path_top rows cols pieceSize coin scatter (by omega),
          hEdge_interior rows cols coin hr1 (by omega) hc]
        rcases hcn : coin (hSeedIdx rows cols r c) <;> simp [invertSide, hSeedIdx]
    · rcases Nat.lt_or_ge (c + 1) cols with hlt | hge
      · rw [mkPiece_path_right rows cols pieceSize coin scatter hlt,
          vEdge_interior rows cols coin hr (by omega) hlt]
        rcases hcn : coin (vSeedIdx cols r (c + 1)) <;> simp [vSeedIdx]
      · have : c = cols - 1 := by omega
        simp [mkPiece, this]
    · rcases Nat.lt_or_ge (r + 1) rows with hlt | hge
      · rw [mkPiece_path_bottom rows cols pieceSize coin scatter hlt,
          hEdge_interior rows cols coin (by omega) hlt hc]
        rcases hcn : coin (hSeedIdx rows cols (r + 1) c) <;> simp [hSeedIdx]
      · have : r = rows - 1 := by omega
        simp [mkPiece, this]
    · rcases Nat.eq_zero_or_pos c with rfl | hc1
      · simp [mkPiece]
      · rw [mkPiece_path_left rows cols pieceSize coin scatter (by omega),
          vEdge_interior rows cols coin hr hc1 hc]
        rcases hcn : coin (vSeedIdx cols r c) <;> simp [invertSide, vSeedIdx]

/-- The side length of every cell edge: `Math.sqrt(100²) = 100`. -/
theorem sqrt_hundred_mul : Real.sqrt ((100 : ℝ) * 100) = 100 := by
  rw [show ((100 : ℝ) * 100) = 100 ^ 2 by norm_num]
  exact Real.sqrt_sq (by norm_num)

/-- `Math.atan2(0, 100) = 0` (top side direction). -/
theorem atan2_zero_pos : atan2 0 100 = 0 := by
  unfold atan2
  rw [if_pos (by norm_num : (0 : ℝ) < 100)]
  norm_num

/-- `Math.atan2(100, 0) = π/2` (right side direction). -/
theorem atan2_pos_zero : atan2 100 0 = Real.pi / 2 := by
  unfold atan2
  norm_num

/-- `Math.atan2(0, -100) = π` (bottom side direction). -/
theorem atan2_zero_neg : atan2 0 (-100) = Real.pi := by
  unfold atan2
  norm_num

/-- `Math.atan2(-100, 0) = -π/2` (left side direction). -/
theorem atan2_neg_zero : atan2 (-100) 0 = -(Real.pi / 2) := by
  unfold atan2
  norm_num

set_option maxHeartbeats 1600000 in
/-- Claim C1: mirror consistency of adjacent outlines.  For every built
board and every pair of grid-adjacent cells sharing an interior border
seed, with each piece placed at its correct position (and rendered with
`translate(position) scale(pieceSize/100)` as `PuzzlePiece` does), the two
cells' outline paths coincide exactly along the shared border: for every
segment index `j` and every Bézier parameter `t`, the forward-traversing
side's point at `(j, t)` equals the reverse-traversing neighbour side's
point at `(3 - j, 1 - t)` — exact real equality, hence zero gap and zero
overlap.  First conjunct: vertical border, right side of `(r, c)` against
left side of `(r, c+1)`; second: horizontal border, top side of
`(r+1, c)` against bottom side of `(r, c)`. -/
theorem mirror_consistency (rows cols : ℕ) (pieceSize : ℚ) (coin : ℕ → Bool)
    (scatter : ℕ → Pos) (r c : ℕ) (j : Fin 4) (t : ℝ) :
    (r < rows → c + 1 < cols →
      globalPoint pieceSize
        (mkPiece rows cols pieceSize coin scatter r c).correctPosition
        (pathPoint (rightSegs (mkPiece rows cols pieceSize coin scatter r c).path)
          ⟨100, 0⟩ (j : ℕ) t) =
      globalPoint pieceSize
        (mkPiece rows cols pieceSize coin scatter r (c + 1)).correctPosition
        (pathPoint (leftSegs (mkPiece rows cols pieceSize coin scatter r (c + 1)).path)
          ⟨0, 100⟩ (3 - (j : ℕ)) (1 - t))) ∧
    (r + 1 < rows → c < cols →
      globalPoint pieceSize
        (mkPiece rows cols pieceSize coin scatter (r + 1) c).correctPosition
        (pathPoint (topSegs (mkPiece rows cols pieceSize coin scatter (r + 1) c).path)
          ⟨0, 0⟩ (j : ℕ) t) =
      globalPoint pieceSize
        (mkPiece rows cols pieceSize coin scatter r c).correctPosition
        (pathPoint (bottomSegs (mkPiece rows cols pieceSize coin scatter r c).path)
          ⟨100, 100⟩ (3 - (j : ℕ)) (1 - t))) := by
  constructor
  · intro hr hc
    simp only [rightSegs, leftSegs]
    rw [mkPiece_path_right rows cols pieceSize coin scatter hc,
      mkPiece_path_left rows cols pieceSize coin scatter (by omega : c + 1 ≠ 0),
      vEdge_interior rows cols coin hr (by omega) hc,
      mkPiece_correctPosition, mkPiece_correctPosition]
    rcases hcn : coin (vSeedIdx cols r (c + 1)) <;> fin_cases j <;>
      simp [sideSegments, invertSide, computeSegs, reverseSegments, applyDir,
        pathPoint, bez, globalPoint, seg0, atan2_pos_zero, atan2_neg_zero,
        Real.cos_pi_div_two, Real.sin_pi_div_two, sqrt_hundred_mul,
        -mul_eq_mul_left_iff, -mul_eq_mul_right_iff] <;>
      (repeat' apply And.intro) <;> ring
  · intro hr hc
    simp only [topSegs, bottomSegs]
    rw [mkPiece_path_top rows cols pieceSize coin scatter (by omega : r + 1 ≠ 0),
      mkPiece_path_bottom rows cols pieceSize coin scatter hr,
      hEdge_interior rows cols coin (by omega) hr hc,
      mkPiece_correctPosition, mkPiece_correctPosition]
    rcases hcn : coin (hSeedIdx rows cols (r + 1) c) <;> fin_cases j <;>
      simp [sideSegments, invertSide, computeSegs, reverseSegments, applyDir,
        pathPoint, bez, globalPoint, seg0, atan2_zero_pos, atan2_zero_neg,
        Real.cos_pi, Real.sin_pi, sqrt_hundred_mul,
        -mul_eq_mul_left_iff, -mul_eq_mul_right_iff] <;>
      (repeat' apply And.intro) <;> ring

end PieceOfPeace
